import Mathlib

/-!
Verification development for the SPAECE retrieval core (`src/streamlit_app.py`).

Texts are modelled as `List Char` (Python strings are sequences of unicode
code points; Python slicing/indexing corresponds to list operations).
Machine floats of the source are modelled as `ℚ`; the external library
calls (sklearn's TF-IDF vectorizer / cosine_similarity, Python's `re`
module) are abstracted as explicit parameters or modelled from their
documented contracts, as noted at each definition.  Everything else is a
direct transcription of the Python source.
-/

namespace SPAECE

/-! ### Python `str.split()` (whitespace split, empty words dropped) -/

/-- Accumulator-based model of Python `str.split()` (no separator
argument): splits on runs of whitespace and never yields empty words.
`cur` holds the current word, reversed. -/
def pyWordsAux : List Char → List Char → List (List Char)
  | [], cur => if cur.isEmpty then [] else [cur.reverse]
  | c :: cs, cur =>
    if c.isWhitespace then
      if cur.isEmpty then pyWordsAux cs [] else cur.reverse :: pyWordsAux cs []
    else pyWordsAux cs (c :: cur)

/-- Python `texto.split()` as used by `dividir_em_chunks`. -/
def pyWords (l : List Char) : List (List Char) := pyWordsAux l []

/-- Python `' '.join(ws)`. -/
def joinSp : List (List Char) → List Char
  | [] => []
  | [w] => w
  | w :: ws => w ++ ' ' :: joinSp ws

/-- Python truthiness of `s.strip()`: true iff some char is not whitespace. -/
def stripNonempty (l : List Char) : Bool := l.any (fun c => !c.isWhitespace)

/-! ### The Chunker: `dividir_em_chunks` -/

/-- One chunk record, as built by `dividir_em_chunks`:
`{'texto': ..., 'indice': ..., 'posicao_inicial': ...}`.
`texto` is the `' '.join` of the word window. -/
structure Chunk where
  texto : List Char
  indice : Nat
  posicao_inicial : Nat
deriving DecidableEq, Repr, Inhabited

/-- The word window `palavras[i:i + tamanho]`. -/
def sliceWords (palavras : List (List Char)) (i tamanho : Nat) : List (List Char) :=
  (palavras.drop i).take tamanho

/-- The successive values of `i` produced by `range(0, n, s)` for `s > 0`:
`0, s, 2s, ...`, all `< n`. -/
def chunkStarts (n s : Nat) : List Nat :=
  (List.range ((n + s - 1) / s)).map (fun k => k * s)

/-- The body of the `for i in range(...)` loop of `dividir_em_chunks`:
builds the chunk, and appends it (with `indice = len(chunks)`) when
`chunk.strip()` is truthy. -/
def dividirLoop (palavras : List (List Char)) (tamanho : Nat) :
    List Nat → List Chunk → List Chunk
  | [], chunks => chunks
  | i :: idxs, chunks =>
    let chunk := joinSp (sliceWords palavras i tamanho)
    if stripNonempty chunk then
      dividirLoop palavras tamanho idxs
        (chunks ++ [⟨chunk, chunks.length, i⟩])
    else dividirLoop palavras tamanho idxs chunks

/-- Model of `dividir_em_chunks(texto, tamanho_chunk=1000, sobreposicao=200)`.

The source iterates `range(0, len(palavras), tamanho_chunk - sobreposicao)`
with the stride taken unguarded from Python int subtraction: a zero stride
makes `range` raise `ValueError` (modelled as `Except.error`), a negative
stride makes `range` empty, so no chunks are produced. -/
def dividir_em_chunks (texto : String) (tamanho_chunk : Nat := 1000)
    (sobreposicao : Nat := 200) : Except String (List Chunk) :=
  let palavras := pyWords texto.toList
  let step : Int := (tamanho_chunk : Int) - (sobreposicao : Int)
  if step = 0 then Except.error "range() arg 3 must not be zero"
  else if step < 0 then Except.ok []
  else Except.ok
    (dividirLoop palavras tamanho_chunk
      (chunkStarts palavras.length (tamanho_chunk - sobreposicao)) [])

/-- Number of words of a chunk's text (the chunk windows are word lists
joined by single spaces, so this recovers the window length). -/
def numPalavras (c : Chunk) : Nat := (pyWords c.texto).length

/-- How many word positions two chunks of the same corpus share, computed
from their start offsets and word counts. -/
def sharedWords (c1 c2 : Chunk) : Nat :=
  min (c1.posicao_inicial + numPalavras c1) (c2.posicao_inicial + numPalavras c2)
    - max c1.posicao_inicial c2.posicao_inicial

/-! ### The Table/Numeric Extractor: `extrair_tabelas_do_md` -/

/-- First index at which `sep` occurs in `l` (leftmost match), if any. -/
def firstOccur (sep l : List Char) : Option Nat :=
  (List.range (l.length + 1)).find? (fun i => sep.isPrefixOf (l.drop i))

/-- Python `s.split(sep)` for a nonempty separator: split at each leftmost
non-overlapping occurrence.  `fuel` bounds the recursion; `l.length + 1`
always suffices since each step drops at least `sep.length ≥ 1` chars. -/
def splitOnAux (sep : List Char) : Nat → List Char → List (List Char)
  | 0, l => [l]
  | fuel + 1, l =>
    match firstOccur sep l with
    | none => [l]
    | some i => l.take i :: splitOnAux sep fuel (l.drop (i + sep.length))

/-- Python `texto_md.split('\n---')`. -/
def splitSections (l : List Char) : List (List Char) :=
  splitOnAux "\n---".toList (l.length + 1) l

/-- Python `secoes[-5:] if len(secoes) > 5 else secoes`. -/
def ultimasSecoes (secoes : List (List Char)) : List (List Char) :=
  if 5 < secoes.length then secoes.drop (secoes.length - 5) else secoes

/-- Regex part `(?:\.\d+)?` — an optional fractional part: consumed only when the text
starts with `'.'` followed by at least one digit.  Returns the consumed
match part and the rest. -/
def matchFrac (l : List Char) : List Char × List Char :=
  match l with
  | '.' :: rest =>
    let ds := rest.takeWhile Char.isDigit
    if ds.isEmpty then ([], l) else ('.' :: ds, rest.dropWhile Char.isDigit)
  | _ => ([], l)

/-- Regex part `(?:\s+\d+(?:\.\d+)?)*` — greedily consume whitespace-separated further
numbers.  An iteration succeeds only when a whitespace run is immediately
followed by a digit (the regex cannot skip non-whitespace).  `fuel` bounds
the recursion; the input length always suffices since every iteration
consumes at least two chars. -/
def matchStar : Nat → List Char → List Char × List Char
  | 0, l => ([], l)
  | fuel + 1, l =>
    let ws := l.takeWhile Char.isWhitespace
    if ws.isEmpty then ([], l)
    else
      let r := l.dropWhile Char.isWhitespace
      let ds := r.takeWhile Char.isDigit
      if ds.isEmpty then ([], l)
      else
        let r2 := r.dropWhile Char.isDigit
        let fr := matchFrac r2
        let more := matchStar fuel fr.2
        (ws ++ ds ++ fr.1 ++ more.1, more.2)

/-- One match of `\d+(?:\.\d+)?(?:\s+\d+(?:\.\d+)?)*` starting at a digit:
the matched text and the remaining input. -/
def matchNum (l : List Char) : List Char × List Char :=
  let ds := l.takeWhile Char.isDigit
  let r := l.dropWhile Char.isDigit
  let fr := matchFrac r
  let star := matchStar fr.2.length fr.2
  (ds ++ fr.1 ++ star.1, star.2)

/-- Model of `re.findall(r'(\d+(?:\.\d+)?(?:\s+\d+(?:\.\d+)?)*)', secao)`: scan left
to right, matching at each digit and resuming after each (nonempty) match.
`fuel` bounds the scan; the input length always suffices. -/
def findallNumAux : Nat → List Char → List (List Char)
  | 0, _ => []
  | _, [] => []
  | fuel + 1, c :: rest =>
    if c.isDigit then
      let m := matchNum (c :: rest)
      m.1 :: findallNumAux fuel m.2
    else findallNumAux fuel rest

/-- All matches of the numeric-run pattern in a section. -/
def findallNum (l : List Char) : List (List Char) := findallNumAux l.length l

/-- One table candidate, as built by `extrair_tabelas_do_md`:
`{'conteudo': ..., 'secao': ..., 'dados_numericos': ...}`. -/
structure Tabela where
  conteudo : List Char
  secao : List Char
  dados_numericos : List (List Char)
deriving DecidableEq, Repr, Inhabited

/-- The candidate record built for one section with matches:
`conteudo` interpolates the first 10 matches, `secao` is the section when
it has at most 200 chars and otherwise its 200-char head with `'...'`
appended, `dados_numericos` keeps the first 10 matches. -/
def mkTabela (secao : List Char) (ms : List (List Char)) : Tabela :=
  ⟨"Dados numéricos encontrados: ".toList
      ++ List.intercalate ", ".toList (ms.take 10),
    if 200 < secao.length then secao.take 200 ++ "...".toList else secao,
    ms.take 10⟩

/-- Model of `extrair_tabelas_do_md(texto_md)`: split on `'\n---'`, keep the last 5
sections, and for each section whose numeric-run scan matches, emit a
candidate.  The enclosing `try/except` of the source never fires (every
step here is total); it would return `[]`. -/
def extrair_tabelas_do_md (texto_md : List Char) : List Tabela :=
  let secoes := splitSections texto_md
  let ultimas := ultimasSecoes secoes
  ultimas.foldl
    (fun acc secao =>
      let ms := findallNum secao
      if ms.isEmpty then acc else acc ++ [mkTabela secao ms]) []

/-! ### The Section Extractor: `extrair_secoes_importantes` -/

/-- The fixed `padroes_secoes` table: topic name, case-insensitive pattern. -/
def padroes_secoes : List (String × String) :=
  [("metodologia", "(metodologia|método|procedimento)"),
   ("indicadores", "(indicador|métrica|medida)"),
   ("resultados", "(resultado|conclusão|achado)"),
   ("recomendacoes", "(recomenda|sugestão|orientação)"),
   ("tabelas", "(tabela|quadro|dados)"),
   ("graficos", "(gráfico|figura|chart)"),
   ("habilidades", "(habilidade|competência|capacidade)"),
   ("componentes", "(componente|disciplina|área)"),
   ("relacoes", "(relação|relacionamento|conexão|vinculação)"),
   ("proficiencia", "(proficiência|desempenho|rendimento)"),
   ("avaliacao", "(avaliação|teste|exame)"),
   ("curriculo", "(currículo|conteúdo|programa)"),
   ("bncc_competencias", "(competência geral|competência específica|habilidade essencial)"),
   ("bncc_campos", "(campo de experiência|área de conhecimento)"),
   ("bncc_objetivos", "(objetivo de aprendizagem|expectativa de aprendizagem)"),
   ("bncc_etapas", "(educação infantil|ensino fundamental|ensino médio)"),
   ("bncc_areas", "(linguagens|matemática|ciências|humanas)"),
   ("bncc_objetivos_gerais", "(objetivo geral|finalidade|propósito)"),
   ("bncc_principios", "(princípio|fundamento|base)"),
   ("bncc_organizacao", "(organização|estrutura|distribuição)"),
   ("bncc_avaliacao", "(avaliação formativa|avaliação diagnóstica|avaliação somativa)"),
   ("dcrc_competencias_especificas",
      "(competência específica|habilidade específica|descrição da habilidade)"),
   ("dcrc_descricoes_habilidades", "(descrição|caracterização|definição.*habilidade)"),
   ("dcrc_relacoes_habilidades",
      "(relação.*habilidade|vinculação.*competência|conexão.*componente)")]

/-- The context window around one match span `(start, end)`:
`texto_md[max(0, start-500) : min(len(texto_md), end+500)]`
(`Nat` subtraction truncates at 0 exactly as Python's `max(0, ·)`). -/
def contextoWindow (texto : List Char) (span : Nat × Nat) : List Char :=
  let inicio := max 0 (span.1 - 500)
  let fim := min texto.length (span.2 + 500)
  (texto.drop inicio).take (fim - inicio)

/-- Python `secoes[nome].append(contexto)` with `secoes[nome] = []` on first use,
on an insertion-ordered dict modelled as an association list. -/
def dictAppend (secoes : List (String × List (List Char))) (nome : String)
    (ctx : List Char) : List (String × List (List Char)) :=
  if secoes.any (fun kv => kv.1 = nome) then
    secoes.map (fun kv => if kv.1 = nome then (kv.1, kv.2 ++ [ctx]) else kv)
  else secoes ++ [(nome, [ctx])]

/-- Dict lookup (`nome in secoes` / `secoes[nome]`). -/
def dictGet (secoes : List (String × List (List Char))) (nome : String) :
    Option (List (List Char)) :=
  (secoes.find? (fun kv => kv.1 = nome)).map (fun kv => kv.2)

/-- Model of `extrair_secoes_importantes(texto_md)`.

`finditer` abstracts `re.finditer(padrao, texto_md, re.IGNORECASE)` (a
Python stdlib call, not repository code): it yields, per pattern, the
ordered `(start, end)` spans of the matches in `texto_md`. -/
def extrair_secoes_importantes (finditer : String → List (Nat × Nat))
    (texto_md : List Char) : List (String × List (List Char)) :=
  padroes_secoes.foldl
    (fun secoes np =>
      (finditer np.2).foldl
        (fun secoes span => dictAppend secoes np.1 (contextoWindow texto_md span))
        secoes)
    []

/-! ### The Similarity Indexer: `criar_indice_similaridade` -/

/-- ASCII model of the regex word class `\w` used by the vectorizer's
default `token_pattern`.  Python's `\w` additionally accepts non-ASCII
word characters (accented letters, for instance), which this model drops,
so every statement that depends on the token class is scoped to ASCII
chunk texts, where the two classes coincide exactly
(`[a-zA-Z0-9_]`). -/
def isWordChar (c : Char) : Bool := c.isAlphanum || c = '_'

/-- Word-char runs of a text, via the same accumulator scheme as
`pyWordsAux`. -/
def wordRunsAux : List Char → List Char → List (List Char)
  | [], cur => if cur.isEmpty then [] else [cur.reverse]
  | c :: cs, cur =>
    if isWordChar c then wordRunsAux cs (c :: cur)
    else if cur.isEmpty then wordRunsAux cs [] else cur.reverse :: wordRunsAux cs []

/-- sklearn `CountVectorizer` tokenization with the default
`token_pattern=r"(?u)\b\w\w+\b"` and `lowercase=True`: lowercased maximal
word-char runs of length at least 2.  Exact for ASCII text; see
`isWordChar` for the scope of the word-char class. -/
def tokenize (l : List Char) : List (List Char) :=
  ((wordRunsAux l []).filter (fun w => 2 ≤ w.length)).map (fun w => w.map Char.toLower)

/-- Terms of one document for `ngram_range=(1, 2)`: its unigrams and
space-joined bigrams. -/
def docTerms (l : List Char) : List (List Char) :=
  let toks := tokenize l
  toks ++ (toks.zip toks.tail).map (fun p => p.1 ++ ' ' :: p.2)

/-- The fitted vocabulary over all documents (deduplicated term list).
The `max_features=1000` cap of the source selects the 1000 most frequent
terms; it never changes whether the vocabulary is empty, and no statement
below depends on which terms survive, so the cap is not modelled. -/
def buildVocab (docs : List (List Char)) : List (List Char) :=
  ((docs.map docTerms).flatten).dedup

/-- The loaded similarity index: the fitted vocabulary and the exact chunk
sequence it was built from.  The `vectorizer`/`tfidf_matrix` fields of the
source are floating-point sklearn objects; their only use, computing the
per-chunk cosine similarities of a query, is abstracted as the `cosSim`
argument of `buscar_informacoes_relevantes` below. -/
structure Indice where
  vocabulario : List (List Char)
  chunks : List Chunk
deriving DecidableEq, Repr

/-- Model of `criar_indice_similaridade(chunks)`: `None` for an empty chunk list;
otherwise fit the vectorizer over the chunk texts.  sklearn's
`fit_transform` raises `ValueError("empty vocabulary ...")` when no
document yields any token; the source catches every exception and returns
`None`, so that path is modelled as the second `none` branch. -/
def criar_indice_similaridade (chunks : List Chunk) : Option Indice :=
  if chunks.isEmpty then none
  else
    let vocab := buildVocab (chunks.map (fun c => c.texto))
    if vocab.isEmpty then none
    else some ⟨vocab, chunks⟩

/-! ### The Retriever: `buscar_informacoes_relevantes` -/

/-- Python `needle in hay` on strings (contiguous substring test). -/
def subIn (needle hay : List Char) : Bool :=
  (List.range (hay.length + 1)).any (fun i => needle.isPrefixOf (hay.drop i))

/-- Python `s.lower()`.  `Char.toLower` lowercases ASCII letters only;
Python also lowercases non-ASCII letters, which never matters below (the
trigger keywords' accented letters have no uppercase ASCII form and every
concrete input used is ASCII). -/
def pyLower (l : List Char) : List Char := l.map Char.toLower

/-- One retrieval result, as appended by `buscar_informacoes_relevantes`:
`{'chunk': ..., 'similaridade': ..., 'texto': ..., 'fonte': ...}`.
The `fonte` key is optional because the keyword-fallback pass of the
source builds its dict without it. -/
structure Resultado where
  chunk : Chunk
  similaridade : ℚ
  texto : List Char
  fonte : Option (List Char)
deriving DecidableEq, Repr, Inhabited

/-- The deterministic query expansion at the top of
`buscar_informacoes_relevantes` (the f-strings concatenate the query, one
space and the fixed tail). -/
def expandirConsulta (consulta : List Char) : List Char :=
  if subIn "habilidade".toList (pyLower consulta)
      || subIn "competência".toList (pyLower consulta) then
    consulta ++ (" habilidade competência capacidade componente relação entre componentes proximidade habilidades SPAECE DCRC BNCC avaliação proficiência competência geral competência específica habilidade essencial descrição da habilidade caracterização habilidade específica vinculação competência conexão componente relação dentro próprio componente competências específicas descrições habilidades relações habilidades objeto de conhecimento campo de experiência prática de linguagem percurso aprendizado progressão sequência dependência pré-requisito hierarquia metodologia estratégia ensino objetivo aprendizagem expectativa aprendizagem direito aprendizagem base nacional comum curricular documento curricular referencial").toList
  else if subIn "proficiência".toList (pyLower consulta)
      || subIn "desempenho".toList (pyLower consulta) then
    consulta ++ (" proficiência desempenho rendimento SPAECE DCRC BNCC avaliação competência objetivo de aprendizagem competência específica").toList
  else if subIn "participação".toList (pyLower consulta) then
    consulta ++ (" participação frequência presença SPAECE DCRC BNCC educação básica").toList
  else
    consulta ++ (" educação avaliação SPAECE DCRC BNCC metodologia indicadores competência geral competência específica habilidade essencial descrição habilidade").toList

/-- Model of `np.argsort(similaridades)[::-1]`: indices stably sorted by
ascending score, then reversed.  numpy's indirect introsort is
deterministic but documented unstable in general; it is guaranteed stable
only in its small-array insertion-sort regime (fewer than 16 entries),
which `List.insertionSort` models exactly and which is the only regime any
tie-order statement below relies on.  For larger arrays this model fixes
one deterministic tie order where numpy's is deterministic but
unspecified; no statement depends on ties there. -/
def argsortDesc (sims : List ℚ) : List Nat :=
  (List.insertionSort (fun i j => sims.getD i 0 ≤ sims.getD j 0)
    (List.range sims.length)).reverse

/-- Source identification of the primary pass: explicit markers first,
then chunk-index parity. -/
def fontePrimaria (chunk_texto : List Char) (idx : Nat) : List Char :=
  if subIn "BNCC".toList chunk_texto
      || subIn "Base Nacional Comum Curricular".toList chunk_texto
      || subIn "BNCC_20dez_site".toList chunk_texto then "BNCC".toList
  else if subIn "DCRC".toList chunk_texto
      || subIn "Documento Curricular Referencial".toList chunk_texto
      || subIn "dcrc".toList (pyLower chunk_texto) then "DCRC".toList
  else if idx % 2 = 0 then "BNCC".toList else "DCRC".toList

/-- The result record the primary pass appends for chunk index `idx`. -/
def mkResultadoPrimario (chunks : List Chunk) (sims : List ℚ) (idx : Nat) : Resultado :=
  let chunk_texto := (chunks.getD idx default).texto
  ⟨chunks.getD idx default, sims.getD idx 0, chunk_texto,
    some (fontePrimaria chunk_texto idx)⟩

/-- The primary ranking pass: walk the `top_k` highest-scored indices in
descending-score order and keep those with score strictly above `0.05`. -/
def primaryPass (chunks : List Chunk) (sims : List ℚ) (top_k : Nat) : List Resultado :=
  ((argsortDesc sims).take top_k).foldl
    (fun resultados idx =>
      if (0.05 : ℚ) < sims.getD idx 0 then
        resultados ++ [mkResultadoPrimario chunks sims idx]
      else resultados)
    []

/-- The fixed keyword set of the topic-boost pass. -/
def palavras_habilidade : List (List Char) :=
  ["habilidade", "competência", "capacidade", "componente", "relação",
   "vinculação", "conexão", "descrição", "caracterização", "específica",
   "geral", "essencial", "dcrc", "documento curricular", "bncc",
   "base nacional comum curricular"].map String.toList

/-- Source identification of the topic-boost pass (fewer markers than the
primary pass, then the same parity fallback on the enumeration index). -/
def fonteHabilidade (texto : List Char) (i : Nat) : List Char :=
  if subIn "BNCC".toList texto
      || subIn "Base Nacional Comum Curricular".toList texto then "BNCC".toList
  else if subIn "DCRC".toList texto
      || subIn "Documento Curricular Referencial".toList texto then "DCRC".toList
  else if i % 2 = 0 then "BNCC".toList else "DCRC".toList

/-- The topic-boost loop over `enumerate(chunks)`: append any chunk whose
lowercased text contains one of the fixed keywords and which is not
already present (by `indice`), with synthetic score `0.4`; `break` right
after an append reaches `top_k * 2` results. -/
def boostLoop (top_k : Nat) : List (Nat × Chunk) → List Resultado → List Resultado
  | [], resultados => resultados
  | (i, chunk) :: rest, resultados =>
    let texto_chunk := pyLower chunk.texto
    if palavras_habilidade.any (fun palavra => subIn palavra texto_chunk) then
      if resultados.any (fun r => r.chunk.indice = chunk.indice) then
        boostLoop top_k rest resultados
      else
        let resultados' :=
          resultados ++ [⟨chunk, 0.4, chunk.texto, some (fonteHabilidade chunk.texto i)⟩]
        if top_k * 2 ≤ resultados'.length then resultados'
        else boostLoop top_k rest resultados'
    else boostLoop top_k rest resultados

/-- The keyword-fallback loop: append any chunk whose lowercased text
contains one of the lowercased query tokens, with synthetic score `0.3`
and no `fonte` key; `break` right after an append reaches `top_k`
results. -/
def fallbackLoop (palavras_chave : List (List Char)) (top_k : Nat) :
    List Chunk → List Resultado → List Resultado
  | [], resultados => resultados
  | chunk :: rest, resultados =>
    let texto_chunk := pyLower chunk.texto
    if palavras_chave.any (fun palavra => subIn palavra texto_chunk) then
      let resultados' := resultados ++ [⟨chunk, 0.3, chunk.texto, none⟩]
      if top_k ≤ resultados'.length then resultados'
      else fallbackLoop palavras_chave top_k rest resultados'
    else fallbackLoop palavras_chave top_k rest resultados

/-- Model of `buscar_informacoes_relevantes(consulta, dados_rag, top_k=5)`.

`dados_rag = none` covers both falsy `dados_rag` and a missing/`None`
`'indice_similaridade'` entry, the guard at the top of the source.

`cosSim` abstracts
`cosine_similarity(vectorizer.transform([consulta_expandida]), tfidf_matrix).flatten()`
— the floating-point sklearn computation held by the loaded index — as the
map from the expanded query to the per-chunk score vector.  Cosine scores
of the nonnegative TF-IDF vectors lie in `[0, 1]`; statements that need
this assume it explicitly. -/
def buscar_informacoes_relevantes (cosSim : List Char → List ℚ) (consulta : String)
    (dados_rag : Option Indice) (top_k : Nat := 5) : List Resultado :=
  match dados_rag with
  | none => []
  | some indice =>
    let chunks := indice.chunks
    let consulta_expandida := expandirConsulta consulta.toList
    let similaridades := cosSim consulta_expandida
    let resultados := primaryPass chunks similaridades top_k
    let resultados :=
      if subIn "habilidade".toList (pyLower consulta.toList)
          || subIn "competência".toList (pyLower consulta.toList) then
        boostLoop top_k chunks.enum resultados
      else resultados
    if resultados.isEmpty then
      fallbackLoop (pyWords (pyLower consulta.toList)) top_k chunks resultados
    else resultados

/-! ### Concrete fixtures for the retrieval claims -/

/-- Constant similarity vector `[1/2]` — the exact score two identical
vectors sharing a term would give is irrelevant; any strictly positive
cosine is reachable. -/
def cosSimMeio : List Char → List ℚ := fun _ => [mkRat 1 2]

/-- A one-chunk index whose chunk text carries the BNCC marker. -/
def idxMarcado : Indice := ⟨[], [⟨"BNCC aa".toList, 0, 0⟩]⟩

/-- Similarity vector `[0]`: the expanded query `"zz ..."` shares no
vectorizer token with the chunk `"azzb cc dd"`, so its transformed vector
is zero and the cosine is exactly `0`. -/
def cosSimZero : List Char → List ℚ := fun _ => [mkRat 0 1]

/-- A one-chunk index with no source marker whose text contains the query
token `"zz"` only as a substring (`"azzb"`), so only the fallback pass can
return it. -/
def idxSemMarcador : Indice := ⟨[], [⟨"azzb cc dd".toList, 0, 0⟩]⟩

/-- Two chunks with identical text receive exactly equal cosine scores;
`[1/2, 1/2]` realises such a tie above the `0.05` threshold. -/
def cosSimEmpate : List Char → List ℚ := fun _ => [mkRat 1 2, mkRat 1 2]

/-- A two-chunk index for the tie-order counterexample. -/
def idxEmpate : Indice :=
  ⟨[], [⟨"BNCC aa".toList, 0, 0⟩, ⟨"BNCC aa".toList, 1, 1⟩]⟩

/-- Spans for the witness: the pattern of topic `metodologia` matches once
at `[0, 11)`; everything else matches nowhere. -/
def finditerW : String → List (Nat × Nat) :=
  fun p => if p = "(metodologia|método|procedimento)" then [(0, 11)] else []

/-- The corpus of the C9 counterexample: two hundred letters followed by a
digit — a single section of 201 chars containing one numeric match. -/
def texto201 : List Char := List.replicate 200 'a' ++ ['7']


/-! ### Lemmas: words produced by `pyWords` and the `joinSp` round trip -/

theorem pyWordsAux_good (l : List Char) :
    ∀ cur, (∀ c ∈ cur, c.isWhitespace = false) →
      ∀ w ∈ pyWordsAux l cur, w ≠ [] ∧ ∀ c ∈ w, c.isWhitespace = false := by
  induction l with
  | nil =>
    intro cur hcur w hw
    by_cases h : cur.isEmpty <;> simp [pyWordsAux, h] at hw
    rcases hw with rfl
    constructor
    · simpa [List.isEmpty_iff] using h
    · intro c hc
      exact hcur c (by simpa using hc)
  | cons c cs ih =>
    intro cur hcur w hw
    by_cases hws : c.isWhitespace
    · by_cases hcure : cur.isEmpty
      · rw [pyWordsAux, if_pos hws, if_pos hcure] at hw
        exact ih [] (by simp) w hw
      · rw [pyWordsAux, if_pos hws, if_neg hcure] at hw
        rcases List.mem_cons.mp hw with rfl | hw'
        · refine ⟨by simpa [List.isEmpty_iff] using hcure, fun c' hc' => hcur c' ?_⟩
          simpa using hc'
        · exact ih [] (by simp) w hw'
    · rw [pyWordsAux, if_neg hws] at hw
      refine ih (c :: cur) ?_ w hw
      intro c' hc'
      rcases List.mem_cons.mp hc' with rfl | h
      · simpa using hws
      · exact hcur c' h

theorem pyWordsAux_append_run (w : List Char) (hw : ∀ c ∈ w, c.isWhitespace = false) :
    ∀ l cur, pyWordsAux (w ++ l) cur = pyWordsAux l (w.reverse ++ cur) := by
  induction w with
  | nil => intro l cur; simp
  | cons c w' ih =>
    intro l cur
    have hc : c.isWhitespace = false := hw c (by simp)
    rw [List.cons_append, pyWordsAux, if_neg (by simp [hc])]
    rw [ih (fun c' hc' => hw c' (by simp [hc'])) l (c :: cur)]
    simp

theorem pyWords_joinSp (ws : List (List Char))
    (h : ∀ w ∈ ws, w ≠ [] ∧ ∀ c ∈ w, c.isWhitespace = false) :
    pyWords (joinSp ws) = ws := by
  induction ws with
  | nil => rfl
  | cons w rest ih =>
    have hw := h w (by simp)
    cases rest with
    | nil =>
      show pyWordsAux (joinSp [w]) [] = [w]
      have : joinSp [w] = w ++ [] := by simp [joinSp]
      rw [this, pyWordsAux_append_run w hw.2]
      simp [pyWordsAux, List.isEmpty_iff, hw.1]
    | cons w2 rest2 =>
      show pyWordsAux (joinSp (w :: w2 :: rest2)) [] = w :: w2 :: rest2
      have hj : joinSp (w :: w2 :: rest2) = w ++ ' ' :: joinSp (w2 :: rest2) := rfl
      rw [hj, pyWordsAux_append_run w hw.2]
      have hrev : (w.reverse ++ []).isEmpty = false := by
        simp [List.isEmpty_iff, hw.1]
      rw [pyWordsAux, if_pos (by decide : (' ').isWhitespace = true),
        if_neg (by simp [List.isEmpty_iff, hw.1])]
      have := ih (fun w' hw' => h w' (by simp [hw']))
      simp only [pyWords] at this
      simp [this]

theorem joinSp_cons_exists (w : List Char) (rest : List (List Char)) :
    ∃ t, joinSp (w :: rest) = w ++ t := by
  cases rest with
  | nil => exact ⟨[], by simp [joinSp]⟩
  | cons w2 r2 => exact ⟨' ' :: joinSp (w2 :: r2), rfl⟩

theorem stripNonempty_joinSp (ws : List (List Char)) (hne : ws ≠ [])
    (h : ∀ w ∈ ws, w ≠ [] ∧ ∀ c ∈ w, c.isWhitespace = false) :
    stripNonempty (joinSp ws) = true := by
  obtain ⟨w, rest, rfl⟩ := List.exists_cons_of_ne_nil hne
  obtain ⟨t, ht⟩ := joinSp_cons_exists w rest
  have hw := h w (by simp)
  obtain ⟨c, hc⟩ := List.exists_mem_of_ne_nil w hw.1
  rw [ht, stripNonempty, List.any_eq_true]
  exact ⟨c, List.mem_append_left _ hc, by simp [hw.2 c hc]⟩

theorem mem_sliceWords {palavras : List (List Char)} {i t : Nat} {w : List Char}
    (h : w ∈ sliceWords palavras i t) : w ∈ palavras := by
  have h1 : w ∈ palavras.drop i := List.mem_of_mem_take h
  exact List.mem_of_mem_drop h1

theorem sliceWords_ne_nil {palavras : List (List Char)} {i t : Nat}
    (hi : i < palavras.length) (ht : 0 < t) : sliceWords palavras i t ≠ [] := by
  have hd : palavras.drop i ≠ [] := by
    simp [List.drop_eq_nil_iff]
    omega
  obtain ⟨x, xs, hx⟩ := List.exists_cons_of_ne_nil hd
  rw [sliceWords, hx]
  cases t with
  | zero => omega
  | succ t' => simp

/-! ### Lemmas: the index arithmetic of `range(0, n, s)` -/

theorem chunkStarts_length (n s : Nat) : (chunkStarts n s).length = (n + s - 1) / s := by
  simp [chunkStarts]

theorem chunkStarts_getElem (n s k : Nat) (h : k < (chunkStarts n s).length) :
    (chunkStarts n s).get ⟨k, h⟩ = k * s := by
  simp [chunkStarts]

theorem chunkStarts_lt (n s k : Nat) (hs : 0 < s) (h : k < (n + s - 1) / s) :
    k * s < n := by
  have h2 : (k + 1) * s ≤ n + s - 1 := by
    have := (Nat.le_div_iff_mul_le hs).mp (Nat.succ_le_of_lt h)
    exact this
  rw [Nat.succ_mul] at h2
  omega

theorem mem_chunkStarts_lt {n s i : Nat} (hs : 0 < s) (hi : i ∈ chunkStarts n s) :
    i < n := by
  rw [chunkStarts, List.mem_map] at hi
  obtain ⟨k, hk, rfl⟩ := hi
  exact chunkStarts_lt n s k hs (List.mem_range.mp hk)

/-! ### Lemmas: the chunk-building loop -/

theorem dividirLoop_eq (palavras : List (List Char)) (tamanho : Nat) (idxs : List Nat)
    (hgood : ∀ i ∈ idxs, stripNonempty (joinSp (sliceWords palavras i tamanho)) = true) :
    ∀ acc, dividirLoop palavras tamanho idxs acc
      = acc ++ (List.enumFrom acc.length idxs).map
          (fun p => ⟨joinSp (sliceWords palavras p.2 tamanho), p.1, p.2⟩) := by
  induction idxs with
  | nil => intro acc; simp [dividirLoop]
  | cons i idxs' ih =>
    intro acc
    rw [dividirLoop]
    simp only [hgood i (by simp), if_true]
    rw [ih (fun j hj => hgood j (by simp [hj])) (acc ++ [_])]
    simp [List.enumFrom]

/-- The words of the corpus are nonempty and whitespace-free. -/
theorem pyWords_good (l : List Char) :
    ∀ w ∈ pyWords l, w ≠ [] ∧ ∀ c ∈ w, c.isWhitespace = false :=
  pyWordsAux_good l [] (by simp)

/-- For a positive stride, `dividir_em_chunks` produces exactly the
enumerated word windows. -/
theorem dividir_em_chunks_pos (texto : String) (tamanho sobre : Nat)
    (h : sobre < tamanho) :
    dividir_em_chunks texto tamanho sobre
      = Except.ok
        ((List.enumFrom 0 (chunkStarts (pyWords texto.toList).length (tamanho - sobre))).map
          (fun p => ⟨joinSp (sliceWords (pyWords texto.toList) p.2 tamanho), p.1, p.2⟩)) := by
  rw [dividir_em_chunks]
  have h1 : ¬ ((tamanho : Int) - (sobre : Int) = 0) := by
    intro hc; omega
  have h2 : ¬ ((tamanho : Int) - (sobre : Int) < 0) := by
    intro hc; omega
  rw [if_neg h1, if_neg h2]
  congr 1
  apply dividirLoop_eq
  intro i hi
  have hlt : i < (pyWords texto.toList).length :=
    mem_chunkStarts_lt (by omega) hi
  apply stripNonempty_joinSp
  · exact sliceWords_ne_nil hlt (by omega)
  · intro w hw
    exact pyWords_good texto.toList w (mem_sliceWords hw)

/-- The number of words shared by one chunk and the next, computed from
slice arithmetic. -/
theorem numPalavras_slice (palavras : List (List Char)) (i tamanho : Nat)
    (hgood : ∀ w ∈ palavras, w ≠ [] ∧ ∀ c ∈ w, c.isWhitespace = false) :
    (pyWords (joinSp (sliceWords palavras i tamanho))).length
      = min tamanho (palavras.length - i) := by
  rw [pyWords_joinSp _ (fun w hw => hgood w (mem_sliceWords hw))]
  simp [sliceWords]

/-- Claim C2: The spec mandates a stride guarded at `max(1, target_size -
overlap)`; the code iterates `range(0, len, tamanho_chunk - sobreposicao)`
unguarded.  At `overlap = target_size` Python's `range` raises
`ValueError` instead of terminating normally, and at `overlap >
target_size` the range is empty, so no chunk is ever emitted. -/
theorem chunker_unguarded_stride :
    dividir_em_chunks "a b c" 200 200 = Except.error "range() arg 3 must not be zero"
      ∧ dividir_em_chunks "a b c" 200 300 = Except.ok [] :=
  ⟨rfl, rfl⟩

/-- Claim C3: Empty corpus: the chunker returns an empty chunk list, the
indexer returns the `None` sentinel, and with that sentinel every query
returns an empty result list — none of the three steps can fail. -/
theorem empty_corpus_degrades_gracefully :
    dividir_em_chunks "" 1000 200 = Except.ok []
      ∧ criar_indice_similaridade [] = none
      ∧ ∀ (cosSim : List Char → List ℚ) (consulta : String) (top_k : Nat),
          buscar_informacoes_relevantes cosSim consulta none top_k = [] :=
  ⟨rfl, rfl, fun _ _ _ => rfl⟩

/-- Claim C5 (counterexample): With `target_size = 3`, `overlap = 2` the
corpus `"a b c d"` yields four chunks whose last consecutive pair shares
only 1 word, not `overlap = 2`: the first of the pair is truncated by the
end of the text. -/
theorem chunk_overlap_counterexample :
    dividir_em_chunks "a b c d" 3 2
      = Except.ok
          [⟨"a b c".toList, 0, 0⟩, ⟨"b c d".toList, 1, 1⟩,
           ⟨"c d".toList, 2, 2⟩, ⟨"d".toList, 3, 3⟩]
      ∧ sharedWords ⟨"c d".toList, 2, 2⟩ ⟨"d".toList, 3, 3⟩ = 1 :=
  ⟨rfl, rfl⟩

/-- Claim C5 (amended): For every input and configuration on which the
chunker returns a list, the `indice` fields are contiguous from 0 (hence
strictly increasing); and when `0 < overlap < target_size`, each pair of
consecutive chunks shares exactly `overlap` words provided the earlier
chunk holds a full `target_size`-word window (final truncated pairs may
share fewer, as the counterexample shows). -/
theorem chunk_indices_and_overlap (texto : String) (tamanho sobre : Nat)
    (cs : List Chunk)
    (hok : dividir_em_chunks texto tamanho sobre = Except.ok cs) :
    (∀ k, (hk : k < cs.length) → (cs.get ⟨k, hk⟩).indice = k)
      ∧ (0 < sobre → sobre < tamanho →
          ∀ k, (hk1 : k + 1 < cs.length) →
            (cs.get ⟨k, by omega⟩).posicao_inicial + tamanho
                ≤ (pyWords texto.toList).length →
            sharedWords (cs.get ⟨k, by omega⟩) (cs.get ⟨k + 1, hk1⟩) = sobre) := by
  by_cases hlt : sobre < tamanho
  · rw [dividir_em_chunks_pos texto tamanho sobre hlt, Except.ok.injEq] at hok
    subst hok
    set palavras := pyWords texto.toList with hpal
    set n := palavras.length
    set s := tamanho - sobre with hs
    have hs0 : 0 < s := by omega
    have hlen : ((List.enumFrom 0 (chunkStarts n s)).map
        (fun p => (⟨joinSp (sliceWords palavras p.2 tamanho), p.1, p.2⟩ : Chunk))).length
        = (n + s - 1) / s := by
      simp [chunkStarts_length]
    have hget : ∀ k, (hk : k < ((List.enumFrom 0 (chunkStarts n s)).map
        (fun p => (⟨joinSp (sliceWords palavras p.2 tamanho), p.1, p.2⟩ : Chunk))).length) →
        ((List.enumFrom 0 (chunkStarts n s)).map
          (fun p => (⟨joinSp (sliceWords palavras p.2 tamanho), p.1, p.2⟩ : Chunk))).get ⟨k, hk⟩
          = ⟨joinSp (sliceWords palavras (k * s) tamanho), k, k * s⟩ := by
      intro k hk
      have hk' : k < (n + s - 1) / s := by rwa [hlen] at hk
      have hkc : k < (chunkStarts n s).length := by rw [chunkStarts_length]; exact hk'
      have hcs := chunkStarts_getElem n s k hkc
      simp only [List.get_eq_getElem] at hcs
      simp only [List.get_eq_getElem, List.getElem_map, List.getElem_enumFrom]
      simp [hcs]
    constructor
    · intro k hk
      rw [hget k hk]
    · intro hsobre _ k hk1 hfull
      have hk : k < ((List.enumFrom 0 (chunkStarts n s)).map
          (fun p => (⟨joinSp (sliceWords palavras p.2 tamanho), p.1, p.2⟩ : Chunk))).length := by
        omega
      rw [hget k hk, hget (k + 1) hk1] at *
      have hk1' : k + 1 < (n + s - 1) / s := by rwa [hlen] at hk1
      have hBn : (k + 1) * s < n := chunkStarts_lt n s (k + 1) hs0 hk1'
      have hgood := pyWords_good texto.toList
      rw [sharedWords]
      simp only [numPalavras]
      rw [numPalavras_slice palavras (k * s) tamanho hgood,
        numPalavras_slice palavras ((k + 1) * s) tamanho hgood]
      simp only at hfull
      have hB : (k + 1) * s = k * s + s := by ring
      omega
  · rcases Nat.eq_or_lt_of_le (Nat.le_of_not_lt hlt) with heq | hgt
    · exfalso
      rw [dividir_em_chunks] at hok
      rw [if_pos (by omega)] at hok
      exact Except.noConfusion hok
    · rw [dividir_em_chunks] at hok
      rw [if_neg (by omega), if_pos (by omega), Except.ok.injEq] at hok
      subst hok
      exact ⟨fun k hk => absurd hk (by simp), fun _ _ k hk1 => absurd hk1 (by simp)⟩

/-- Witness for `chunk_indices_and_overlap` at `"a b c d e"`,
`target_size = 3`, `overlap = 1`. -/
theorem chunk_indices_and_overlap_witness :
    (([⟨"a b c".toList, 0, 0⟩, ⟨"c d e".toList, 1, 2⟩,
        ⟨"e".toList, 2, 4⟩] : List Chunk).get ⟨1, by decide⟩).indice = 1
      ∧ sharedWords
          (([⟨"a b c".toList, 0, 0⟩, ⟨"c d e".toList, 1, 2⟩,
              ⟨"e".toList, 2, 4⟩] : List Chunk).get ⟨0, by decide⟩)
          (([⟨"a b c".toList, 0, 0⟩, ⟨"c d e".toList, 1, 2⟩,
              ⟨"e".toList, 2, 4⟩] : List Chunk).get ⟨1, by decide⟩) = 1 := by
  have h := chunk_indices_and_overlap "a b c d e" 3 1
    [⟨"a b c".toList, 0, 0⟩, ⟨"c d e".toList, 1, 2⟩, ⟨"e".toList, 2, 4⟩] rfl
  exact ⟨h.1 1 (by decide),
    h.2 (by decide) (by decide) 0 (by decide) (by decide)⟩

/-! ### Lemmas and claims: the indexer -/

theorem docTerms_eq_nil (l : List Char) : docTerms l = [] ↔ tokenize l = [] := by
  rw [docTerms]
  constructor
  · intro h
    exact (List.append_eq_nil.mp h).1
  · intro h
    simp [h]

/-- Claim C4 (counterexample): The corpus `"a b c"` yields one (nonempty)
chunk, yet the indexer returns the `None` sentinel: no chunk text contains
a token of at least two word characters, sklearn's `fit_transform` raises
`ValueError("empty vocabulary ...")`, and the surrounding `except` turns
it into `None`. -/
theorem indexer_none_com_chunks :
    dividir_em_chunks "a b c" 1000 200 = Except.ok [⟨"a b c".toList, 0, 0⟩]
      ∧ ([(⟨"a b c".toList, 0, 0⟩ : Chunk)] ≠ [])
      ∧ criar_indice_similaridade [⟨"a b c".toList, 0, 0⟩] = none :=
  ⟨rfl, by simp, rfl⟩

/-- Claim C4 (amended): for corpora whose chunk texts are ASCII — where
the modelled token class coincides exactly with sklearn's
`(?u)\b\w\w+\b` — the indexer returns the `None` sentinel exactly when
the chunk sequence is empty **or** no chunk text yields any vectorizer
token (a run of at least two word characters); being `Option`-valued, it
never raises in either case.  The hypothesis only scopes the statement to
the regime where the tokenizer model is exact. -/
theorem indexer_none_iff (chunks : List Chunk)
    (_hascii : ∀ c ∈ chunks, ∀ ch ∈ c.texto, ch.toNat < 128) :
    criar_indice_similaridade chunks = none
      ↔ (chunks = [] ∨ ∀ c ∈ chunks, tokenize c.texto = []) := by
  rw [criar_indice_similaridade]
  by_cases h : chunks.isEmpty
  · simp [h, List.isEmpty_iff.mp h]
  · rw [if_neg h]
    have hne : chunks ≠ [] := by simpa [List.isEmpty_iff] using h
    have hvocab : (buildVocab (chunks.map (fun c => c.texto))).isEmpty = true
        ↔ ∀ c ∈ chunks, tokenize c.texto = [] := by
      rw [List.isEmpty_iff, buildVocab, List.dedup_eq_nil, List.flatten_eq_nil_iff]
      constructor
      · intro hall c hc
        exact (docTerms_eq_nil c.texto).mp
          (hall (docTerms c.texto)
            (List.mem_map_of_mem docTerms (List.mem_map_of_mem _ hc)))
      · intro hall x hx
        rw [List.map_map] at hx
        obtain ⟨c, hc, rfl⟩ := List.mem_map.mp hx
        exact (docTerms_eq_nil c.texto).mpr (hall c hc)
    by_cases hv : (buildVocab (chunks.map (fun c => c.texto))).isEmpty
    · rw [if_pos hv]
      exact iff_of_true rfl (Or.inr (hvocab.mp hv))
    · rw [if_neg hv]
      simp only [reduceCtorEq, false_iff, not_or]
      exact ⟨hne, fun hall => hv (hvocab.mpr hall)⟩

/-- Witness for `indexer_none_iff` on a concrete ASCII corpus with a real
token: the iff rules out the sentinel. -/
theorem indexer_none_iff_witness :
    criar_indice_similaridade [⟨"aa bb".toList, 0, 0⟩] ≠ none := by
  have h := indexer_none_iff [⟨"aa bb".toList, 0, 0⟩] (by decide)
  intro hc
  rcases h.mp hc with h1 | h2
  · exact absurd h1 (by decide)
  · exact absurd (h2 ⟨"aa bb".toList, 0, 0⟩ (by decide)) (by decide)

/-! ### Lemmas: the primary ranking pass -/

theorem primaryPass_eq (chunks : List Chunk) (sims : List ℚ) (top_k : Nat) :
    primaryPass chunks sims top_k
      = (((argsortDesc sims).take top_k).filter
          (fun i => decide ((0.05 : ℚ) < sims.getD i 0))).map
          (mkResultadoPrimario chunks sims) := by
  rw [primaryPass]
  suffices h : ∀ (l : List Nat) (acc : List Resultado),
      l.foldl (fun resultados idx =>
        if (0.05 : ℚ) < sims.getD idx 0 then
          resultados ++ [mkResultadoPrimario chunks sims idx]
        else resultados) acc
      = acc ++ (l.filter (fun i => decide ((0.05 : ℚ) < sims.getD i 0))).map
          (mkResultadoPrimario chunks sims) by
    simpa using h ((argsortDesc sims).take top_k) []
  intro l
  induction l with
  | nil => intro acc; simp
  | cons i l ih =>
    intro acc
    rw [List.foldl_cons]
    by_cases hp : (0.05 : ℚ) < sims.getD i 0
    · rw [if_pos hp, ih]
      have hp' : (0.05 : ℚ) < sims[i]?.getD 0 := by simpa using hp
      simp [List.filter_cons, hp']
    · rw [if_neg hp, ih]
      have hp' : ¬ (0.05 : ℚ) < sims[i]?.getD 0 := by simpa using hp
      simp [List.filter_cons, hp']

theorem primaryPass_mem (chunks : List Chunk) (sims : List ℚ) (top_k : Nat)
    (r : Resultado) :
    r ∈ primaryPass chunks sims top_k
      ↔ ∃ i, i ∈ (argsortDesc sims).take top_k ∧ (0.05 : ℚ) < sims.getD i 0
          ∧ r = mkResultadoPrimario chunks sims i := by
  rw [primaryPass_eq]
  constructor
  · intro hr
    obtain ⟨i, hi, rfl⟩ := List.mem_map.mp hr
    obtain ⟨hi1, hi2⟩ := List.mem_filter.mp hi
    exact ⟨i, hi1, by simpa using hi2, rfl⟩
  · rintro ⟨i, hi1, hi2, rfl⟩
    exact List.mem_map.mpr ⟨i, List.mem_filter.mpr ⟨hi1, by simpa using hi2⟩, rfl⟩

theorem argsortDesc_sorted (sims : List ℚ) :
    (argsortDesc sims).Pairwise (fun i j => sims.getD j 0 ≤ sims.getD i 0) := by
  rw [argsortDesc]
  rw [List.pairwise_reverse]
  haveI : IsTotal Nat (fun i j => sims.getD i 0 ≤ sims.getD j 0) :=
    ⟨fun a b => le_total _ _⟩
  haveI : IsTrans Nat (fun i j => sims.getD i 0 ≤ sims.getD j 0) :=
    ⟨fun a b c => le_trans⟩
  exact List.sorted_insertionSort _ _

theorem argsortDesc_mem (sims : List ℚ) (i : Nat) :
    i ∈ argsortDesc sims ↔ i < sims.length := by
  rw [argsortDesc]
  simp [List.mem_reverse, List.mem_insertionSort, List.mem_range]

/-- Claim C6: The primary ranking pass: a result appears iff it is built
from one of the `top_k` highest-ranked chunk indices whose score is
**strictly** above `0.05` (so a candidate scoring exactly `0.05` is
excluded — membership would require `0.05 < 0.05`); the pass emits at most
`top_k` results, in descending score order. -/
theorem primary_pass_threshold_spec (chunks : List Chunk) (sims : List ℚ)
    (top_k : Nat) :
    (∀ r, r ∈ primaryPass chunks sims top_k
        ↔ ∃ i, i ∈ (argsortDesc sims).take top_k ∧ (0.05 : ℚ) < sims.getD i 0
            ∧ r = mkResultadoPrimario chunks sims i)
      ∧ (primaryPass chunks sims top_k).length ≤ top_k
      ∧ ((primaryPass chunks sims top_k).map (fun r => r.similaridade)).Pairwise
          (fun a b => b ≤ a) := by
  refine ⟨primaryPass_mem chunks sims top_k, ?_, ?_⟩
  · rw [primaryPass_eq]
    calc ((((argsortDesc sims).take top_k).filter
            (fun i => decide ((0.05 : ℚ) < sims.getD i 0))).map
            (mkResultadoPrimario chunks sims)).length
        = (((argsortDesc sims).take top_k).filter
            (fun i => decide ((0.05 : ℚ) < sims.getD i 0))).length := by
          rw [List.length_map]
      _ ≤ ((argsortDesc sims).take top_k).length := List.length_filter_le _ _
      _ ≤ top_k := by
          rw [List.length_take]
          exact Nat.min_le_left _ _
  · rw [primaryPass_eq, List.map_map]
    have hsorted : (((argsortDesc sims).take top_k).filter
        (fun i => decide ((0.05 : ℚ) < sims.getD i 0))).Pairwise
        (fun i j => sims.getD j 0 ≤ sims.getD i 0) := by
      refine List.Pairwise.sublist ?_ (argsortDesc_sorted sims)
      exact (List.filter_sublist _).trans (List.take_sublist _ _)
    rw [List.pairwise_map]
    refine hsorted.imp ?_
    intro i j h
    simpa [mkResultadoPrimario] using h

/-! ### Lemmas: the boost and fallback passes, and `buscar` case analysis -/

theorem fonteHabilidade_cases (texto : List Char) (i : Nat) :
    fonteHabilidade texto i = "BNCC".toList ∨ fonteHabilidade texto i = "DCRC".toList := by
  rw [fonteHabilidade]
  split_ifs <;> simp

theorem fontePrimaria_cases (texto : List Char) (idx : Nat) :
    fontePrimaria texto idx = "BNCC".toList ∨ fontePrimaria texto idx = "DCRC".toList := by
  rw [fontePrimaria]
  split_ifs <;> simp

theorem boostLoop_mem (top_k : Nat) :
    ∀ (l : List (Nat × Chunk)) (acc : List Resultado) (r : Resultado),
      r ∈ boostLoop top_k l acc →
        r ∈ acc ∨ (r.similaridade = 0.4
          ∧ (r.fonte = some "BNCC".toList ∨ r.fonte = some "DCRC".toList)) := by
  intro l
  induction l with
  | nil =>
    intro acc r hr
    exact Or.inl hr
  | cons p rest ih =>
    intro acc r hr
    obtain ⟨i, chunk⟩ := p
    rw [boostLoop] at hr
    by_cases h1 : palavras_habilidade.any
        (fun palavra => subIn palavra (pyLower chunk.texto)) = true
    · rw [if_pos h1] at hr
      by_cases h2 : acc.any (fun r => r.chunk.indice = chunk.indice) = true
      · rw [if_pos h2] at hr
        exact ih acc r hr
      · rw [if_neg h2] at hr
        by_cases h3 : top_k * 2 ≤ (acc ++ [(⟨chunk, 0.4, chunk.texto,
            some (fonteHabilidade chunk.texto i)⟩ : Resultado)]).length
        · rw [if_pos h3] at hr
          rcases List.mem_append.mp hr with h | h
          · exact Or.inl h
          · simp only [List.mem_singleton] at h
            subst h
            exact Or.inr ⟨rfl, by
              rcases fonteHabilidade_cases chunk.texto i with h | h <;> simp [h]⟩
        · rw [if_neg h3] at hr
          rcases ih _ r hr with h | h
          · rcases List.mem_append.mp h with h' | h'
            · exact Or.inl h'
            · simp only [List.mem_singleton] at h'
              subst h'
              exact Or.inr ⟨rfl, by
              rcases fonteHabilidade_cases chunk.texto i with h | h <;> simp [h]⟩
          · exact Or.inr h
    · rw [if_neg h1] at hr
      exact ih acc r hr

theorem fallbackLoop_mem (palavras_chave : List (List Char)) (top_k : Nat) :
    ∀ (l : List Chunk) (acc : List Resultado) (r : Resultado),
      r ∈ fallbackLoop palavras_chave top_k l acc →
        r ∈ acc ∨ (r.similaridade = 0.3 ∧ r.fonte = none) := by
  intro l
  induction l with
  | nil =>
    intro acc r hr
    exact Or.inl hr
  | cons chunk rest ih =>
    intro acc r hr
    rw [fallbackLoop] at hr
    by_cases h1 : palavras_chave.any
        (fun palavra => subIn palavra (pyLower chunk.texto)) = true
    · rw [if_pos h1] at hr
      by_cases h2 : top_k ≤ (acc ++ [(⟨chunk, 0.3, chunk.texto, none⟩ : Resultado)]).length
      · rw [if_pos h2] at hr
        rcases List.mem_append.mp hr with h | h
        · exact Or.inl h
        · simp only [List.mem_singleton] at h
          subst h
          exact Or.inr ⟨rfl, rfl⟩
      · rw [if_neg h2] at hr
        rcases ih _ r hr with h | h
        · rcases List.mem_append.mp h with h' | h'
          · exact Or.inl h'
          · simp only [List.mem_singleton] at h'
            subst h'
            exact Or.inr ⟨rfl, rfl⟩
        · exact Or.inr h
    · rw [if_neg h1] at hr
      exact ih acc r hr

/-- Every result of `buscar_informacoes_relevantes` comes from the primary
pass, the topic-boost pass (score `0.4`, tagged source) or the keyword
fallback (score `0.3`, no source). -/
theorem buscar_result_cases (cosSim : List Char → List ℚ) (consulta : String)
    (dados_rag : Option Indice) (top_k : Nat) (r : Resultado)
    (hr : r ∈ buscar_informacoes_relevantes cosSim consulta dados_rag top_k) :
    (∃ indice, dados_rag = some indice
        ∧ r ∈ primaryPass indice.chunks (cosSim (expandirConsulta consulta.toList)) top_k)
      ∨ (r.similaridade = 0.4
          ∧ (r.fonte = some "BNCC".toList ∨ r.fonte = some "DCRC".toList))
      ∨ (r.similaridade = 0.3 ∧ r.fonte = none) := by
  match dados_rag with
  | none => exact absurd hr (by simp [buscar_informacoes_relevantes])
  | some indice =>
    rw [buscar_informacoes_relevantes] at hr
    set primeiros := primaryPass indice.chunks
      (cosSim (expandirConsulta consulta.toList)) top_k with hprim
    by_cases hb : (subIn "habilidade".toList (pyLower consulta.toList)
        || subIn "competência".toList (pyLower consulta.toList)) = true
    · rw [if_pos hb] at hr
      by_cases he : (boostLoop top_k indice.chunks.enum primeiros).isEmpty = true
      · rw [if_pos he] at hr
        rcases fallbackLoop_mem _ _ _ _ _ hr with h | h
        · rw [List.isEmpty_iff.mp he] at h
          exact absurd h (by simp)
        · exact Or.inr (Or.inr h)
      · rw [if_neg he] at hr
        rcases boostLoop_mem _ _ _ _ hr with h | h
        · exact Or.inl ⟨indice, rfl, h⟩
        · exact Or.inr (Or.inl h)
    · rw [if_neg hb] at hr
      by_cases he : primeiros.isEmpty = true
      · rw [if_pos he] at hr
        rcases fallbackLoop_mem _ _ _ _ _ hr with h | h
        · rw [List.isEmpty_iff.mp he] at h
          exact absurd h (by simp)
        · exact Or.inr (Or.inr h)
      · rw [if_neg he] at hr
        exact Or.inl ⟨indice, rfl, hr⟩

/-! ### Claims: scores, provenance and determinism of `buscar` -/

/-- Claim C10: Under the cosine contract (scores of the nonnegative TF-IDF
vectors lie in `[0, 1]`), every returned score is strictly above `0.05`
and at most `1`: primary scores are threshold-filtered cosines, and the
only synthetic scores are `0.4` (boost) and `0.3` (fallback). -/
theorem resultado_scores_in_range (cosSim : List Char → List ℚ) (consulta : String)
    (dados_rag : Option Indice) (top_k : Nat)
    (hcontract : ∀ e : List Char, ∀ q ∈ cosSim e, 0 ≤ q ∧ q ≤ 1)
    (r : Resultado)
    (hr : r ∈ buscar_informacoes_relevantes cosSim consulta dados_rag top_k) :
    (0.05 : ℚ) < r.similaridade ∧ r.similaridade ≤ 1 := by
  rcases buscar_result_cases cosSim consulta dados_rag top_k r hr with
    ⟨indice, _, hp⟩ | ⟨h4, _⟩ | ⟨h3, _⟩
  · obtain ⟨i, hi, hgt, rfl⟩ := (primaryPass_mem _ _ _ _).mp hp
    refine ⟨hgt, ?_⟩
    show (cosSim (expandirConsulta consulta.toList)).getD i 0 ≤ 1
    have hi' : i < (cosSim (expandirConsulta consulta.toList)).length :=
      (argsortDesc_mem _ i).mp (List.mem_of_mem_take hi)
    rw [List.getD_eq_getElem _ 0 hi']
    exact (hcontract _ _ (List.getElem_mem hi')).2
  · rw [h4]
    constructor <;> norm_num
  · rw [h3]
    constructor <;> norm_num

/-- Witness for `resultado_scores_in_range` on a concrete one-chunk
index. -/
theorem resultado_scores_in_range_witness :
    (0.05 : ℚ) < ((buscar_informacoes_relevantes cosSimMeio "zz"
        (some idxMarcado) 5).headD default).similaridade
      ∧ ((buscar_informacoes_relevantes cosSimMeio "zz"
          (some idxMarcado) 5).headD default).similaridade ≤ 1 := by
  apply resultado_scores_in_range cosSimMeio "zz" (some idxMarcado) 5
  · intro e q hq
    rw [show cosSimMeio e = [mkRat 1 2] from rfl, List.mem_singleton] at hq
    subst hq
    constructor <;> with_unfolding_all decide
  · with_unfolding_all decide

/-- Claim C1 (counterexample): A query whose only connection to the corpus
is a literal substring hit is answered by the keyword-fallback pass, and
the result record carries **no** provenance label (`fonte = none`): the
fallback of the source appends its dicts without the `'fonte'` key. -/
theorem fallback_result_sem_fonte :
    (buscar_informacoes_relevantes cosSimZero "zz" (some idxSemMarcador) 5).map
        (fun r => (r.similaridade, r.fonte))
      = [((0.3 : ℚ), none)] := by
  with_unfolding_all decide

/-- Claim C1 (amended): Every result of the primary and topic-boost passes
carries provenance `BNCC` or `DCRC` (marker lookup, then index parity);
only keyword-fallback results (score `0.3`) carry no provenance label. -/
theorem resultado_fonte_cases (cosSim : List Char → List ℚ) (consulta : String)
    (dados_rag : Option Indice) (top_k : Nat) (r : Resultado)
    (hr : r ∈ buscar_informacoes_relevantes cosSim consulta dados_rag top_k) :
    r.fonte = some "BNCC".toList ∨ r.fonte = some "DCRC".toList
      ∨ (r.fonte = none ∧ r.similaridade = 0.3) := by
  rcases buscar_result_cases cosSim consulta dados_rag top_k r hr with
    ⟨indice, _, hp⟩ | ⟨_, hf⟩ | ⟨h3, hf⟩
  · obtain ⟨i, _, _, rfl⟩ := (primaryPass_mem _ _ _ _).mp hp
    have hfonte : (mkResultadoPrimario indice.chunks
        (cosSim (expandirConsulta consulta.toList)) i).fonte
        = some (fontePrimaria ((indice.chunks.getD i default).texto) i) := rfl
    rw [hfonte]
    rcases fontePrimaria_cases ((indice.chunks.getD i default).texto) i with h | h
    · exact Or.inl (by rw [h])
    · exact Or.inr (Or.inl (by rw [h]))
  · rcases hf with h | h
    · exact Or.inl h
    · exact Or.inr (Or.inl h)
  · exact Or.inr (Or.inr ⟨hf, h3⟩)

/-- Witness for `resultado_fonte_cases` on a concrete one-chunk index. -/
theorem resultado_fonte_cases_witness :
    ((buscar_informacoes_relevantes cosSimMeio "zz"
        (some idxMarcado) 5).headD default).fonte = some "BNCC".toList
      ∨ ((buscar_informacoes_relevantes cosSimMeio "zz"
          (some idxMarcado) 5).headD default).fonte = some "DCRC".toList
      ∨ (((buscar_informacoes_relevantes cosSimMeio "zz"
            (some idxMarcado) 5).headD default).fonte = none
          ∧ ((buscar_informacoes_relevantes cosSimMeio "zz"
              (some idxMarcado) 5).headD default).similaridade = 0.3) := by
  apply resultado_fonte_cases cosSimMeio "zz" (some idxMarcado) 5
  with_unfolding_all decide

/-- Claim C7 (counterexample): Two chunks with exactly equal scores above
the threshold are returned with the **later** chunk first: the ascending
argsort is stable (ties in first-seen order), and the `[::-1]` reversal
turns that into last-seen-first.  The claim's "ties broken by first-seen
chunk order" would require `[(0, _), (1, _)]` here. -/
theorem tie_order_counterexample :
    (buscar_informacoes_relevantes cosSimEmpate "zz" (some idxEmpate) 5).map
        (fun r => (r.chunk.indice, r.similaridade))
      = [(1, mkRat 1 2), (0, mkRat 1 2)] := by
  with_unfolding_all decide

theorem range_map_getD {α : Type} (l : List α) (d : α) :
    (List.range l.length).map (fun i => l.getD i d) = l := by
  apply List.ext_getElem
  · simp
  · intro i h1 h2
    simp [List.getD_eq_getElem?_getD, List.getElem?_eq_getElem h2]

/-- Claim C7 (amended): Retrieval is a pure function of the query, the
loaded index and its similarity computation, so identical runs yield
identical ordered results; and in numpy's stable small-array regime
(score vectors of fewer than 16 entries, where the introsort behind
`np.argsort` is a stable insertion sort) primary-pass ties are emitted in
**reverse** chunk order — shown here on an all-tied score vector, where
the pass returns the last `top_k` chunks, last first.  For larger tied
score vectors numpy's tie order is deterministic but unspecified, and no
order is claimed.  The length hypothesis only scopes the statement to the
regime where the argsort model is exact. -/
theorem retrieval_pure_and_ties_reversed (cosSim : List Char → List ℚ)
    (consulta : String) (dados_rag : Option Indice) (top_k : Nat)
    (chunks : List Chunk) (_hsmall : chunks.length < 16)
    (s : ℚ) (hs : (0.05 : ℚ) < s) :
    buscar_informacoes_relevantes cosSim consulta dados_rag top_k
        = buscar_informacoes_relevantes cosSim consulta dados_rag top_k
      ∧ (primaryPass chunks (List.replicate chunks.length s) top_k).map
          (fun r => r.chunk)
        = chunks.reverse.take top_k := by
  refine ⟨rfl, ?_⟩
  have hgetD : ∀ i, i < chunks.length →
      (List.replicate chunks.length s).getD i 0 = s := by
    intro i hi
    rw [List.getD_eq_getElem _ _ (by simpa using hi)]
    simp
  have hsorted : (List.range chunks.length).Pairwise
      (fun i j => (List.replicate chunks.length s).getD i 0
        ≤ (List.replicate chunks.length s).getD j 0) := by
    refine (List.pairwise_lt_range chunks.length).imp_of_mem ?_
    intro a b ha hb _
    rw [hgetD a (List.mem_range.mp ha), hgetD b (List.mem_range.mp hb)]
  have hargsort : argsortDesc (List.replicate chunks.length s)
      = (List.range chunks.length).reverse := by
    rw [argsortDesc, List.length_replicate, List.Sorted.insertionSort_eq hsorted]
  rw [primaryPass_eq, hargsort]
  have hfilter : (((List.range chunks.length).reverse).take top_k).filter
      (fun i => decide ((0.05 : ℚ) < (List.replicate chunks.length s).getD i 0))
      = ((List.range chunks.length).reverse).take top_k := by
    apply List.filter_eq_self.mpr
    intro i hi
    have hi' : i < chunks.length := by
      have h1 := List.mem_of_mem_take hi
      rw [List.mem_reverse, List.mem_range] at h1
      exact h1
    rw [hgetD i hi']
    simpa using hs
  rw [hfilter, List.map_map]
  have hcomp : ((fun r => r.chunk) ∘ mkResultadoPrimario chunks
      (List.replicate chunks.length s)) = fun i => chunks.getD i default := rfl
  rw [hcomp, List.map_take, List.map_reverse, range_map_getD]

/-- Witness for `retrieval_pure_and_ties_reversed` on two tied chunks. -/
theorem retrieval_pure_and_ties_reversed_witness :
    (primaryPass [⟨"BNCC aa".toList, 0, 0⟩, ⟨"BNCC bb".toList, 1, 1⟩]
        (List.replicate 2 (mkRat 1 2)) 5).map (fun r => r.chunk)
      = [⟨"BNCC bb".toList, 1, 1⟩, ⟨"BNCC aa".toList, 0, 0⟩] := by
  have h := (retrieval_pure_and_ties_reversed (fun _ => []) "" none 5
    [⟨"BNCC aa".toList, 0, 0⟩, ⟨"BNCC bb".toList, 1, 1⟩] (by decide) (mkRat 1 2)
    (by with_unfolding_all decide)).2
  exact h.trans (by decide)

/-! ### Lemmas: the section-extractor dict -/

theorem dictAppend_cons_ne (kv : String × List (List Char))
    (rest : List (String × List (List Char))) (nome : String) (ctx : List Char)
    (h : ¬ kv.1 = nome) :
    dictAppend (kv :: rest) nome ctx = kv :: dictAppend rest nome ctx := by
  rw [dictAppend, dictAppend, List.any_cons]
  by_cases hr : rest.any (fun kv => kv.1 = nome) = true
  · rw [if_pos (by simp [hr]), if_pos hr, List.map_cons, if_neg h]
  · rw [if_neg (by simp [h, hr]), if_neg hr]
    simp

theorem dictGet_cons_ne (kv : String × List (List Char))
    (rest : List (String × List (List Char))) (nome : String) (h : ¬ kv.1 = nome) :
    dictGet (kv :: rest) nome = dictGet rest nome := by
  rw [dictGet, dictGet, List.find?_cons]
  simp [h]

theorem dictGet_cons_eq (kv : String × List (List Char))
    (rest : List (String × List (List Char))) (nome : String) (h : kv.1 = nome) :
    dictGet (kv :: rest) nome = some kv.2 := by
  rw [dictGet, List.find?_cons]
  simp [h]

/-- The value-updating map of `dictAppend` never changes keys, so a lookup
for a different key is unaffected. -/
theorem find?_map_update_ne (nome nome2 : String) (ctx : List Char)
    (h : ¬ nome2 = nome) (l : List (String × List (List Char))) :
    List.find? (fun kv => kv.1 = nome2)
        (l.map (fun kv => if kv.1 = nome then (kv.1, kv.2 ++ [ctx]) else kv))
      = List.find? (fun kv => kv.1 = nome2) l := by
  induction l with
  | nil => rfl
  | cons kv2 rest2 ih =>
    rw [List.map_cons, List.find?_cons, List.find?_cons]
    have hkey : ((if kv2.1 = nome then (kv2.1, kv2.2 ++ [ctx]) else kv2) :
        String × List (List Char)).1 = kv2.1 := by
      split_ifs <;> rfl
    by_cases h2 : kv2.1 = nome2
    · have hne : ¬ kv2.1 = nome := by
        rw [h2]
        intro hc
        exact h hc
      rw [if_neg hne]
      simp [h2]
    · simp only [hkey, decide_eq_false h2]
      exact ih

theorem dictGet_dictAppend_self (secoes : List (String × List (List Char)))
    (nome : String) (ctx : List Char) :
    dictGet (dictAppend secoes nome ctx) nome
      = some ((dictGet secoes nome).getD [] ++ [ctx]) := by
  induction secoes with
  | nil =>
    rw [dictAppend]
    simp [dictGet, List.find?_cons]
  | cons kv rest ih =>
    by_cases hk : kv.1 = nome
    · have hany : (kv :: rest).any (fun kv => kv.1 = nome) = true := by
        simp [List.any_cons, hk]
      rw [dictAppend, if_pos hany, List.map_cons, if_pos hk]
      rw [dictGet_cons_eq _ _ nome (by simpa using hk), dictGet_cons_eq kv rest nome hk]
      rfl
    · rw [dictAppend_cons_ne kv rest nome ctx hk, dictGet_cons_ne _ _ nome hk,
        dictGet_cons_ne kv rest nome hk]
      exact ih

theorem dictGet_dictAppend_ne (secoes : List (String × List (List Char)))
    (nome nome2 : String) (ctx : List Char) (h : ¬ nome2 = nome) :
    dictGet (dictAppend secoes nome ctx) nome2 = dictGet secoes nome2 := by
  rw [dictAppend]
  by_cases hany : secoes.any (fun kv => kv.1 = nome) = true
  · rw [if_pos hany, dictGet, dictGet, find?_map_update_ne nome nome2 ctx h secoes]
  · rw [if_neg hany, dictGet, dictGet, List.find?_append]
    have hd : decide (nome = nome2) = false := decide_eq_false (fun hc => h hc.symm)
    have hfind : List.find? (fun kv => kv.1 = nome2) [(nome, [ctx])] = none := by
      simp [List.find?_cons, hd]
    rw [hfind]
    simp

/-! ### Lemmas: folding the span list of one topic, then all topics -/

theorem dictGet_foldSpans_self (texto : List Char) (nome : String) :
    ∀ (spans : List (Nat × Nat)) (secoes : List (String × List (List Char))),
      dictGet (spans.foldl
          (fun sec span => dictAppend sec nome (contextoWindow texto span)) secoes) nome
        = if spans.isEmpty then dictGet secoes nome
          else some ((dictGet secoes nome).getD []
              ++ spans.map (contextoWindow texto)) := by
  intro spans
  induction spans with
  | nil =>
    intro secoes
    simp
  | cons sp spans2 ih =>
    intro secoes
    rw [List.foldl_cons, ih]
    by_cases he : spans2.isEmpty = true
    · rw [if_pos he, List.isEmpty_iff.mp he]
      rw [dictGet_dictAppend_self]
      simp
    · rw [if_neg he]
      rw [dictGet_dictAppend_self]
      simp

theorem dictGet_foldSpans_ne (texto : List Char) (nome nome2 : String)
    (h : ¬ nome2 = nome) :
    ∀ (spans : List (Nat × Nat)) (secoes : List (String × List (List Char))),
      dictGet (spans.foldl
          (fun sec span => dictAppend sec nome (contextoWindow texto span)) secoes) nome2
        = dictGet secoes nome2 := by
  intro spans
  induction spans with
  | nil =>
    intro secoes
    rfl
  | cons sp spans2 ih =>
    intro secoes
    rw [List.foldl_cons, ih, dictGet_dictAppend_ne _ _ _ _ h]

theorem dictGet_foldTopics_notMem (finditer : String → List (Nat × Nat))
    (texto : List Char) :
    ∀ (ps : List (String × String)) (secoes : List (String × List (List Char)))
      (nome : String), (∀ np ∈ ps, ¬ np.1 = nome) →
      dictGet (ps.foldl
          (fun sec np => (finditer np.2).foldl
            (fun sec span => dictAppend sec np.1 (contextoWindow texto span)) sec)
          secoes) nome
        = dictGet secoes nome := by
  intro ps
  induction ps with
  | nil =>
    intro secoes nome _
    rfl
  | cons np ps2 ih =>
    intro secoes nome hall
    rw [List.foldl_cons, ih _ nome (fun np2 h2 => hall np2 (by simp [h2]))]
    exact dictGet_foldSpans_ne texto np.1 nome
      (fun hc => hall np (by simp) hc.symm) _ _

theorem dictGet_foldTopics (finditer : String → List (Nat × Nat))
    (texto : List Char) :
    ∀ (ps : List (String × String)) (secoes : List (String × List (List Char)))
      (nome padrao : String),
      (nome, padrao) ∈ ps → (ps.map Prod.fst).Nodup → dictGet secoes nome = none →
      dictGet (ps.foldl
          (fun sec np => (finditer np.2).foldl
            (fun sec span => dictAppend sec np.1 (contextoWindow texto span)) sec)
          secoes) nome
        = if (finditer padrao).isEmpty then none
          else some ((finditer padrao).map (contextoWindow texto)) := by
  intro ps
  induction ps with
  | nil =>
    intro secoes nome padrao hmem
    exact absurd hmem (by simp)
  | cons np ps2 ih =>
    intro secoes nome padrao hmem hnodup hnone
    rw [List.map_cons, List.nodup_cons] at hnodup
    rcases List.mem_cons.mp hmem with heq | hmem2
    · subst heq
      rw [List.foldl_cons]
      have htail : ∀ np2 ∈ ps2, ¬ np2.1 = nome := by
        intro np2 h2 hc
        have hmm := List.mem_map_of_mem Prod.fst h2
        rw [hc] at hmm
        exact hnodup.1 hmm
      rw [dictGet_foldTopics_notMem finditer texto ps2 _ nome htail]
      rw [dictGet_foldSpans_self texto nome (finditer padrao) secoes, hnone]
      by_cases he : (finditer padrao).isEmpty = true
      · rw [if_pos he, if_pos he]
      · rw [if_neg he, if_neg he]
        rfl
    · have hne : ¬ nome = np.1 := by
        intro hc
        have hmm := List.mem_map_of_mem Prod.fst hmem2
        rw [hc] at hmm
        exact hnodup.1 hmm
      rw [List.foldl_cons]
      refine ih _ nome padrao hmem2 hnodup.2 ?_
      rw [dictGet_foldSpans_ne texto np.1 nome hne]
      exact hnone

/-- Claim C8: For every abstracted match list: a topic key is present in the
extractor's mapping iff its pattern matched at least once, and its entries
are exactly the `[max(0, start-500), min(len, end+500))` windows of the
matches, in order.  In particular a corpus with zero matches for every
pattern yields a mapping with no keys at all. -/
theorem secoes_window_and_keys (finditer : String → List (Nat × Nat))
    (texto_md : List Char) (nome padrao : String)
    (hmem : (nome, padrao) ∈ padroes_secoes) :
    (dictGet (extrair_secoes_importantes finditer texto_md) nome
        = if (finditer padrao).isEmpty then none
          else some ((finditer padrao).map (contextoWindow texto_md)))
      ∧ ((∀ p, finditer p = []) →
          extrair_secoes_importantes finditer texto_md = []) := by
  constructor
  · rw [extrair_secoes_importantes]
    exact dictGet_foldTopics finditer texto_md padroes_secoes [] nome padrao hmem
      (by decide) rfl
  · intro hall
    rw [extrair_secoes_importantes]
    have hfix : ∀ (ps : List (String × String))
        (secoes : List (String × List (List Char))),
        ps.foldl (fun sec np => (finditer np.2).foldl
          (fun sec span => dictAppend sec np.1 (contextoWindow texto_md span)) sec)
          secoes = secoes := by
      intro ps
      induction ps with
      | nil =>
        intro secoes
        rfl
      | cons np ps2 ih =>
        intro secoes
        rw [List.foldl_cons, hall np.2, List.foldl_nil]
        exact ih secoes
    exact hfix padroes_secoes []

/-- Witness for `secoes_window_and_keys` on a short corpus. -/
theorem secoes_window_and_keys_witness :
    dictGet (extrair_secoes_importantes finditerW "metodologia aplicada".toList)
        "metodologia"
      = some ["metodologia aplicada".toList] := by
  have h := (secoes_window_and_keys finditerW "metodologia aplicada".toList
    "metodologia" "(metodologia|método|procedimento)" (by decide)).1
  rw [h]
  decide

/-! ### Lemmas and claims: the table extractor -/

theorem tabelasFold_mem :
    ∀ (l : List (List Char)) (acc : List Tabela) (t : Tabela),
      t ∈ l.foldl (fun acc secao =>
          let ms := findallNum secao
          if ms.isEmpty then acc else acc ++ [mkTabela secao ms]) acc →
        t ∈ acc ∨ ∃ secao ∈ l, t = mkTabela secao (findallNum secao) := by
  intro l
  induction l with
  | nil =>
    intro acc t ht
    exact Or.inl ht
  | cons secao rest ih =>
    intro acc t ht
    rw [List.foldl_cons] at ht
    by_cases he : (findallNum secao).isEmpty = true
    · simp only [he, if_true] at ht
      rcases ih _ t ht with h | ⟨s2, hs2, h2⟩
      · exact Or.inl h
      · exact Or.inr ⟨s2, by simp [hs2], h2⟩
    · simp only [he, if_false] at ht
      rcases ih _ t ht with h | ⟨s2, hs2, h2⟩
      · rcases List.mem_append.mp h with h' | h'
        · exact Or.inl h'
        · simp only [List.mem_singleton] at h'
          exact Or.inr ⟨secao, by simp, h'⟩
      · exact Or.inr ⟨s2, by simp [hs2], h2⟩

theorem tabelasFold_length :
    ∀ (l : List (List Char)) (acc : List Tabela),
      (l.foldl (fun acc secao =>
          let ms := findallNum secao
          if ms.isEmpty then acc else acc ++ [mkTabela secao ms]) acc).length
        ≤ acc.length + l.length := by
  intro l
  induction l with
  | nil =>
    intro acc
    simp
  | cons secao rest ih =>
    intro acc
    rw [List.foldl_cons]
    by_cases he : (findallNum secao).isEmpty = true
    · simp only [he, if_true]
      calc (rest.foldl _ acc).length ≤ acc.length + rest.length := ih acc
        _ ≤ acc.length + (secao :: rest).length := by simp
    · simp only [he, if_false]
      calc (rest.foldl _ (acc ++ [mkTabela secao (findallNum secao)])).length
          ≤ (acc ++ [mkTabela secao (findallNum secao)]).length + rest.length := ih _
        _ = acc.length + (secao :: rest).length := by simp; omega

theorem ultimasSecoes_length (secoes : List (List Char)) :
    (ultimasSecoes secoes).length ≤ 5 := by
  rw [ultimasSecoes]
  split_ifs with h
  · simp only [List.length_drop]
    omega
  · omega

set_option maxRecDepth 100000 in
/-- Claim C9 (counterexample): On a 201-char section the emitted candidate's
excerpt is the 200-char prefix with `'...'` appended: 203 chars, longer
than the claimed 200-char bound (and, having `'...'` appended, not a
substring of the section). -/
theorem tabela_excerpt_counterexample :
    (extrair_tabelas_do_md texto201).map (fun t => t.secao.length) = [203]
      ∧ texto201.length = 201 := by
  constructor
  · decide
  · decide

/-- Claim C9 (amended): Every candidate of `extrair_tabelas_do_md` carries
at most 10 numeric tokens and stems from one of the last 5 sections (so at
most 5 candidates are emitted); its excerpt is the whole section when that
has at most 200 chars, and otherwise the 200-char prefix with `'...'`
appended — not a substring in that case. -/
theorem tabelas_spec (texto_md : List Char) (t : Tabela)
    (ht : t ∈ extrair_tabelas_do_md texto_md) :
    t.dados_numericos.length ≤ 10
      ∧ (∃ secao ∈ ultimasSecoes (splitSections texto_md),
          t.secao = (if 200 < secao.length
              then secao.take 200 ++ "...".toList else secao)
            ∧ t.dados_numericos = (findallNum secao).take 10)
      ∧ (extrair_tabelas_do_md texto_md).length ≤ 5 := by
  have hlen : (extrair_tabelas_do_md texto_md).length ≤ 5 := by
    rw [extrair_tabelas_do_md]
    calc ((ultimasSecoes (splitSections texto_md)).foldl _ []).length
        ≤ ([] : List Tabela).length + (ultimasSecoes (splitSections texto_md)).length :=
          tabelasFold_length _ []
      _ ≤ 5 := by
          simpa using ultimasSecoes_length (splitSections texto_md)
  rw [extrair_tabelas_do_md] at ht
  rcases tabelasFold_mem _ _ _ ht with h | ⟨secao, hs, rfl⟩
  · exact absurd h (by simp)
  refine ⟨?_, ⟨secao, hs, rfl, rfl⟩, hlen⟩
  show ((findallNum secao).take 10).length ≤ 10
  rw [List.length_take]
  exact Nat.min_le_left _ _

/-- Witness for `tabelas_spec` on the corpus `"1 2 3"`. -/
theorem tabelas_spec_witness :
    ((extrair_tabelas_do_md "1 2 3".toList).headD default).dados_numericos.length ≤ 10
      ∧ (extrair_tabelas_do_md "1 2 3".toList).length ≤ 5 := by
  have h := tabelas_spec "1 2 3".toList
    ((extrair_tabelas_do_md "1 2 3".toList).headD default) (by decide)
  exact ⟨h.1, h.2.2⟩

end SPAECE
